import Mathlib

/-!
Verification of the neatsheets keystroke-notation core (src/neatsheets/task.py,
src/neatsheets/sheet.py) against its natural-language specification.

Python strings are modelled as `List Char` (`PyStr`); Python's `str.split(sep)`
with a one-character separator is `splitOnChar`, `sep.join(...)` is `joinSep`,
`re.split(r'\s*,\s*', ...)` is `reSplitComma`, and a raised exception is the
`Except.error` branch of `Except`.  `ValueError` from an enum lookup is the
`ParseError.unrecognizedToken` constructor; the `TypeError` raised by calling
`KeystrokeRange.__init__` with the wrong number of positional arguments (which
the source's `except ValueError` handlers do not catch) is
`ParseError.typeError`.
-/

namespace Neatsheets

/-- A Python string, modelled as its list of characters. -/
abbrev PyStr := List Char

/-- `Keystroke` enum from task.py lines 6-90: map representations in data file
to key names.  One constructor per enum member, in source order. -/
inductive Keystroke where
  | BACKSPACE | CMD | WINDOWS | CTRL | DEL | END | ESC | FN | HOME | OPT | ALT
  | PGDN | PGUP | RET | SHIFT | SPACE | TAB | SCROLL_LOCK
  | UP | DOWN | LEFT | RIGHT
  | F1 | F2 | F3 | F4 | F5 | F6 | F7 | F8 | F9 | F10 | F11 | F12
  | A | B | C | D | E | F | G | H | I | J | K | L | M
  | N | O | P | Q | R | S | T | U | V | W | X | Y | Z
  | ONE | TWO | THREE | FOUR | FIVE | SIX | SEVEN | EIGHT | NINE | ZERO
  | APOSTROPHE | BACKTICK | PERIOD | COMMA | SEMICOLON | QUESTION_MARK
  | SLASH | PLUS | MINUS | EQUALS | LEFT_BRACKET | RIGHT_BRACKET | MOUSE_SCROLL
deriving DecidableEq, Repr

/-- The canonical string (the Python enum member's `value`) of each keystroke,
exactly as written in task.py.  `SCROLL_LOCK` contains U+00A0 (no-break
space); `APOSTROPHE` and `BACKTICK` are written via their code points to keep
the embedding plain. -/
def Keystroke.value : Keystroke → PyStr
  | .BACKSPACE => "⌫".data
  | .CMD => "⌘".data
  | .WINDOWS => "⊞".data
  | .CTRL => "^".data
  | .DEL => "del".data
  | .END => "end".data
  | .ESC => "esc".data
  | .FN => "fn".data
  | .HOME => "home".data
  | .OPT => "⌥".data
  | .ALT => "alt".data
  | .PGDN => "pgdn".data
  | .PGUP => "pgup".data
  | .RET => "⏎".data
  | .SHIFT => "⇧".data
  | .SPACE => "space".data
  | .TAB => "tab".data
  | .SCROLL_LOCK => "scroll\u00A0lock".data
  | .UP => "↑".data
  | .DOWN => "↓".data
  | .LEFT => "←".data
  | .RIGHT => "→".data
  | .F1 => "F1".data
  | .F2 => "F2".data
  | .F3 => "F3".data
  | .F4 => "F4".data
  | .F5 => "F5".data
  | .F6 => "F6".data
  | .F7 => "F7".data
  | .F8 => "F8".data
  | .F9 => "F9".data
  | .F10 => "F10".data
  | .F11 => "F11".data
  | .F12 => "F12".data
  | .A => "A".data
  | .B => "B".data
  | .C => "C".data
  | .D => "D".data
  | .E => "E".data
  | .F => "F".data
  | .G => "G".data
  | .H => "H".data
  | .I => "I".data
  | .J => "J".data
  | .K => "K".data
  | .L => "L".data
  | .M => "M".data
  | .N => "N".data
  | .O => "O".data
  | .P => "P".data
  | .Q => "Q".data
  | .R => "R".data
  | .S => "S".data
  | .T => "T".data
  | .U => "U".data
  | .V => "V".data
  | .W => "W".data
  | .X => "X".data
  | .Y => "Y".data
  | .Z => "Z".data
  | .ONE => "1".data
  | .TWO => "2".data
  | .THREE => "3".data
  | .FOUR => "4".data
  | .FIVE => "5".data
  | .SIX => "6".data
  | .SEVEN => "7".data
  | .EIGHT => "8".data
  | .NINE => "9".data
  | .ZERO => "0".data
  | .APOSTROPHE => [Char.ofNat 39]
  | .BACKTICK => [Char.ofNat 96]
  | .PERIOD => ".".data
  | .COMMA => ",".data
  | .SEMICOLON => ";".data
  | .QUESTION_MARK => "?".data
  | .SLASH => "/".data
  | .PLUS => "+".data
  | .MINUS => "-".data
  | .EQUALS => "=".data
  | .LEFT_BRACKET => "[".data
  | .RIGHT_BRACKET => "]".data
  | .MOUSE_SCROLL => "⇳".data

set_option maxHeartbeats 1000000 in
/-- All members of the `Keystroke` enum, in declaration order (the order the
Python enum iterates and the order `Keystroke(value)` lookup scans). -/
def allKeystrokes : List Keystroke :=
  [.BACKSPACE, .CMD, .WINDOWS, .CTRL, .DEL, .END, .ESC, .FN, .HOME, .OPT, .ALT,
   .PGDN, .PGUP, .RET, .SHIFT, .SPACE, .TAB, .SCROLL_LOCK,
   .UP, .DOWN, .LEFT, .RIGHT,
   .F1, .F2, .F3, .F4, .F5, .F6, .F7, .F8, .F9, .F10, .F11, .F12,
   .A, .B, .C, .D, .E, .F, .G, .H, .I, .J, .K, .L, .M,
   .N, .O, .P, .Q, .R, .S, .T, .U, .V, .W, .X, .Y, .Z,
   .ONE, .TWO, .THREE, .FOUR, .FIVE, .SIX, .SEVEN, .EIGHT, .NINE, .ZERO,
   .APOSTROPHE, .BACKTICK, .PERIOD, .COMMA, .SEMICOLON, .QUESTION_MARK,
   .SLASH, .PLUS, .MINUS, .EQUALS, .LEFT_BRACKET, .RIGHT_BRACKET, .MOUSE_SCROLL]

/-- Errors a parse can surface.  `unrecognizedToken s` models the `ValueError`
raised by `Keystroke(s)` when `s` matches no enum member's value (the error
message carries `s`); `typeError n` models the `TypeError` raised by calling
`KeystrokeRange(...)` with `n` positional arguments when `n` is not 2
(task.py line 96) — that exception is not a `ValueError`, so the
`except ValueError` handlers in `Shortcut.parse` do not catch it. -/
inductive ParseError where
  | unrecognizedToken (tok : PyStr)
  | typeError (nargs : Nat)
deriving DecidableEq, Repr

/-- `Keystroke(s)`: Python enum lookup by value.  Returns the member whose
canonical value equals `s`, or raises `ValueError` (carrying `s`). -/
def keystrokeOfValue (s : PyStr) : Except ParseError Keystroke :=
  match List.find? (fun k => k.value = s) allKeystrokes with
  | some k => .ok k
  | none => .error (.unrecognizedToken s)

/-- One keystroke group of a chord: the sum of the three variants a group
substring can decode to (`Keystroke`, `KeystrokeRange` from task.py lines
93-124, `KeystrokeSet` from task.py lines 127-151).  `KeystrokeRange` holds a
start and an end keystroke; `KeystrokeSet` holds an ordered tuple of
keystrokes (the Python class places no non-emptiness constraint on it). -/
inductive KeystrokeGroup where
  | single (k : Keystroke)
  | range (start stop : Keystroke)
  | set (ks : List Keystroke)
deriving DecidableEq, Repr

/-- The `value` property of each group variant: a `Keystroke`'s enum value,
`KeystrokeRange.value` = `f'{start}-{end}'` (task.py line 111), and
`KeystrokeSet.value` = concatenation of member values (task.py line 140). -/
def KeystrokeGroup.value : KeystrokeGroup → PyStr
  | .single k => k.value
  | .range a b => a.value ++ '-' :: b.value
  | .set ks => (ks.map Keystroke.value).flatten

/-- Python `s.split(sep)` for a one-character separator `sep`:
`''.split(sep) = ['']`, and every occurrence of `sep` separates pieces. -/
def splitOnChar (sep : Char) : PyStr → List PyStr
  | [] => [[]]
  | c :: rest =>
    if c = sep then [] :: splitOnChar sep rest
    else
      match splitOnChar sep rest with
      | [] => [[c]]
      | p :: ps => (c :: p) :: ps

/-- Python `sep.join(pieces)` (for any separator string `sep`). -/
def joinSep (sep : PyStr) : List PyStr → PyStr
  | [] => []
  | [p] => p
  | p :: q :: ps => p ++ sep ++ joinSep sep (q :: ps)

/-- Look up each string of a list in turn, propagating the first `ValueError`;
models left-to-right evaluation of the generator
`(Keystroke(k) for k in parts)` while it is unpacked into a call. -/
def lookupList : List PyStr → Except ParseError (List Keystroke)
  | [] => .ok []
  | s :: rest =>
    match keystrokeOfValue s with
    | .error e => .error e
    | .ok k =>
      match lookupList rest with
      | .error e => .error e
      | .ok ks => .ok (k :: ks)

/-- `(Keystroke(k) for k in s)`: iterate the characters of `s`, looking each
one up as a one-character string. -/
def lookupChars (s : PyStr) : Except ParseError (List Keystroke) :=
  lookupList (s.map (fun c => [c]))

/-- The keystroke-group decoder: the body of the loop of `Shortcut.parse`
(task.py lines 186-196) applied to one space-separated substring `s`.
First try `Keystroke(s)`; on `ValueError e`, try
`KeystrokeRange(*(Keystroke(k) for k in s.split('-')))` — the generator is
unpacked first (any `ValueError` there is caught) and then the constructor is
called, raising an uncaught `TypeError` unless exactly two arguments result;
on `ValueError`, try `KeystrokeSet(*(Keystroke(k) for k in s))`, and on
`ValueError` re-raise the original error `e`. -/
def parseKeystrokeGroup (s : PyStr) : Except ParseError KeystrokeGroup :=
  match keystrokeOfValue s with
  | .ok k => .ok (.single k)
  | .error e =>
    match lookupList (splitOnChar '-' s) with
    | .ok ks =>
      match ks with
      | [a, b] => .ok (.range a b)
      | _ => .error (.typeError ks.length)
    | .error _ =>
      match lookupChars s with
      | .ok ks => .ok (.set ks)
      | .error _ => .error e

/-- A `Shortcut` is the tuple of keystroke groups it wraps (task.py line
157). -/
abbrev Shortcut := List KeystrokeGroup

/-- `Shortcut.to_csv_str` (task.py lines 164-166):
`' '.join(k.value for k in keystrokes)`. -/
def Shortcut.to_csv_str (gs : Shortcut) : PyStr :=
  joinSep [' '] (gs.map KeystrokeGroup.value)

/-- Decode each group substring in turn, propagating the first error; the
loop of `Shortcut.parse`. -/
def parseGroups : List PyStr → Except ParseError (List KeystrokeGroup)
  | [] => .ok []
  | s :: rest =>
    match parseKeystrokeGroup s with
    | .error e => .error e
    | .ok g =>
      match parseGroups rest with
      | .error e => .error e
      | .ok gs => .ok (g :: gs)

/-- `Shortcut.parse` (task.py lines 182-198): split the CSV string on single
spaces and decode each substring as a keystroke group. -/
def Shortcut.parse (csvStr : PyStr) : Except ParseError Shortcut :=
  parseGroups (splitOnChar ' ' csvStr)

/-- The characters Python's `re` module treats as `\s` when matching a `str`:
ASCII whitespace plus the Unicode whitespace code points (notably U+00A0). -/
def pyWhitespaceChars : List Char :=
  [' ', '\t', '\n', '\r', Char.ofNat 0x0b, Char.ofNat 0x0c,
   Char.ofNat 0x1c, Char.ofNat 0x1d, Char.ofNat 0x1e, Char.ofNat 0x1f,
   Char.ofNat 0x85, Char.ofNat 0xa0, Char.ofNat 0x1680,
   Char.ofNat 0x2000, Char.ofNat 0x2001, Char.ofNat 0x2002, Char.ofNat 0x2003,
   Char.ofNat 0x2004, Char.ofNat 0x2005, Char.ofNat 0x2006, Char.ofNat 0x2007,
   Char.ofNat 0x2008, Char.ofNat 0x2009, Char.ofNat 0x200a,
   Char.ofNat 0x2028, Char.ofNat 0x2029, Char.ofNat 0x202f,
   Char.ofNat 0x205f, Char.ofNat 0x3000]

/-- Whether a character matches `\s`. -/
def isPySpace (c : Char) : Bool :=
  pyWhitespaceChars.contains c

/-- Worker for `reSplitComma`.  The state is `some acc` while a piece (in
reverse) is being accumulated, and `none` right after a comma while the
separator pattern's trailing `\s*` run is still being consumed.  Each `,`
ends a piece; the whitespace run immediately before it (the reversed
piece's prefix) and immediately after it is consumed by the separator
pattern, exactly as the leftmost-greedy matches of `\s*,\s*` consume it. -/
def reSplitCommaGo : PyStr → Option PyStr → List PyStr
  | [], none => [[]]
  | [], some acc => [acc.reverse]
  | c :: rest, none =>
    if isPySpace c then reSplitCommaGo rest none
    else if c = ',' then [] :: reSplitCommaGo rest none
    else reSplitCommaGo rest (some [c])
  | c :: rest, some acc =>
    if c = ',' then
      (acc.dropWhile isPySpace).reverse :: reSplitCommaGo rest none
    else
      reSplitCommaGo rest (c :: acc)

/-- Python `re.split(r'\s*,\s*', s)`: every comma is a separator, together
with the maximal whitespace runs adjacent to it. -/
def reSplitComma (s : PyStr) : List PyStr :=
  reSplitCommaGo s (some [])

/-- Python `str.lower()` as used on the importance field (ASCII case
folding; the field values the data files carry are ASCII). -/
def pyLower (s : PyStr) : PyStr :=
  s.map Char.toLower

/-- `Task` (task.py lines 201-247): a description, a tuple of alternative
shortcuts, and an importance flag. -/
structure Task where
  desc : PyStr
  shortcut : List Shortcut
  important : Bool
deriving DecidableEq, Repr

/-- Parse each chord string in turn, propagating the first error; models
`tuple(Shortcut.parse(s) for s in ...)`. -/
def parseShortcuts : List PyStr → Except ParseError (List Shortcut)
  | [] => .ok []
  | s :: rest =>
    match Shortcut.parse s with
    | .error e => .error e
    | .ok sc =>
      match parseShortcuts rest with
      | .error e => .error e
      | .ok scs => .ok (sc :: scs)

/-- `Task.parse` (task.py lines 242-247): split the shortcut field with
`re.split(r'\s*,\s*', ...)`, parse each chord, and read the importance field
with `important.lower() == 'true'`. -/
def Task.parse (desc : PyStr) (shortcut : PyStr) (important : PyStr) :
    Except ParseError Task :=
  match parseShortcuts (reSplitComma shortcut) with
  | .error e => .error e
  | .ok shortcuts => .ok ⟨desc, shortcuts, pyLower important = "true".data⟩

/-- `Task.to_csv_dict` (task.py lines 220-225), as the (desc, shortcut,
important) field triple: description verbatim,
`', '.join(s.to_csv_str() for s in shortcut)`, and `'true'`/`'false'`. -/
def Task.to_csv_dict (t : Task) : PyStr × PyStr × PyStr :=
  (t.desc,
   joinSep ", ".data (t.shortcut.map Shortcut.to_csv_str),
   if t.important then "true".data else "false".data)

/-- A task as sheet.py's `to_html` consumes it: carrying a section label
(source attribute name `section`, a Lean keyword, hence `sect` here) next to
the task fields, as constructed in sheet.py's tests. -/
structure SheetTask where
  sect : PyStr
  desc : PyStr
  shortcut : List Shortcut
  important : Bool
deriving DecidableEq, Repr

/-- Worker for `dictFromKeys`: `seen` holds the keys already inserted; a key
already seen is skipped, a new key is kept, in encounter order. -/
def dictFromKeysAux : List PyStr → List PyStr → List PyStr
  | _, [] => []
  | seen, x :: xs =>
    if x ∈ seen then dictFromKeysAux seen xs
    else x :: dictFromKeysAux (x :: seen) xs

/-- `list(dict.fromkeys(...))` (sheet.py line 60): the distinct keys of a
list, keeping the first occurrence of each, in first-seen order. -/
def dictFromKeys (l : List PyStr) : List PyStr :=
  dictFromKeysAux [] l

/-- sheet.py line 60: the unique section labels of a task list while
preserving order. -/
def sheetSections (ts : List SheetTask) : List PyStr :=
  dictFromKeys (ts.map SheetTask.sect)

/-- sheet.py line 61: the dict comprehension
`{section: [task for task in tasks if task.section == section] for section
in sections}`, as an association list in `sections` order. -/
def sheetTasksBySection (ts : List SheetTask) : List (PyStr × List SheetTask) :=
  (sheetSections ts).map (fun sec => (sec, ts.filter (fun t => t.sect = sec)))

/-! ### Vocabulary facts -/

/-- Every keystroke is listed in `allKeystrokes`. -/
theorem keystroke_mem_all (k : Keystroke) : k ∈ allKeystrokes := by
  cases k <;> decide

/-- A successful enum lookup returns a member whose value is the query. -/
theorem keystrokeOfValue_ok_value {s : PyStr} {k : Keystroke}
    (h : keystrokeOfValue s = .ok k) : k.value = s := by
  unfold keystrokeOfValue at h
  cases hf : List.find? (fun k => k.value = s) allKeystrokes with
  | none => rw [hf] at h; exact absurd h (by simp)
  | some k' =>
    rw [hf] at h
    have hk : k' = k := by injection h
    subst hk
    have hp := List.find?_some hf
    simpa using hp

/-- A failed enum lookup raises `ValueError` carrying the query, and no
member's value equals the query. -/
theorem keystrokeOfValue_error {s : PyStr} {e : ParseError}
    (h : keystrokeOfValue s = .error e) :
    e = .unrecognizedToken s ∧ ∀ k : Keystroke, k.value ≠ s := by
  unfold keystrokeOfValue at h
  cases hf : List.find? (fun k => k.value = s) allKeystrokes with
  | some k' => rw [hf] at h; exact absurd h (by simp)
  | none =>
    rw [hf] at h
    refine ⟨by injection h with h'; exact h'.symm, fun k hk => ?_⟩
    have := List.find?_eq_none.mp hf k (keystroke_mem_all k)
    simp only [decide_eq_true_eq] at this
    exact this hk

/-- The enum's string-to-member mapping inverts `value`: looking up a
member's canonical string returns that member (so the vocabulary map is a
bijection). -/
theorem keystrokeOfValue_value (k : Keystroke) :
    keystrokeOfValue k.value = .ok k := by
  cases k <;> rfl

/-- No keystroke has an empty canonical string. -/
theorem keystroke_value_ne_nil (k : Keystroke) : k.value ≠ [] := by
  cases k <;> decide

/-- No canonical string contains a plain space (U+0020): `SCROLL_LOCK` uses
a no-break space, so `' '.join`/`split(' ')` never cut through a token. -/
theorem keystroke_value_no_space (k : Keystroke) : ' ' ∉ k.value := by
  cases k <;> decide

/-- The only canonical string containing a hyphen is `MINUS` itself. -/
theorem keystroke_value_hyphen (k : Keystroke) :
    k = .MINUS ∨ '-' ∉ k.value := by
  cases k <;> decide

/-! ### `split`/`join` inverse lemmas -/

/-- `str.split` never returns an empty list of pieces. -/
theorem splitOnChar_ne_nil (sep : Char) (s : PyStr) :
    splitOnChar sep s ≠ [] := by
  induction s with
  | nil => simp [splitOnChar]
  | cons c rest ih =>
    simp only [splitOnChar]
    split
    · simp
    · cases h : splitOnChar sep rest with
      | nil => exact absurd h ih
      | cons p ps => simp

/-- Splitting a separator-free string yields that string as the only piece. -/
theorem splitOnChar_no_sep {sep : Char} {s : PyStr} (h : sep ∉ s) :
    splitOnChar sep s = [s] := by
  induction s with
  | nil => rfl
  | cons c rest ih =>
    have hc : c ≠ sep := fun hcs => h (hcs ▸ List.mem_cons_self c rest)
    have hrest : sep ∉ rest := fun hm => h (List.mem_cons_of_mem c hm)
    simp only [splitOnChar, if_neg hc, ih hrest]

/-- Splitting past a leading separator-free piece. -/
theorem splitOnChar_append_sep {sep : Char} {p : PyStr} (rest : PyStr)
    (h : sep ∉ p) :
    splitOnChar sep (p ++ sep :: rest) = p :: splitOnChar sep rest := by
  induction p with
  | nil => simp [splitOnChar]
  | cons c q ih =>
    have hc : c ≠ sep := fun hcs => h (hcs ▸ List.mem_cons_self c q)
    have hq : sep ∉ q := fun hm => h (List.mem_cons_of_mem c hm)
    simp only [List.cons_append, splitOnChar, if_neg hc, List.append_eq, ih hq]

/-- `sep.join(s.split(sep)) == s`. -/
theorem joinSep_splitOnChar (sep : Char) (s : PyStr) :
    joinSep [sep] (splitOnChar sep s) = s := by
  induction s with
  | nil => rfl
  | cons c rest ih =>
    simp only [splitOnChar]
    split
    · rename_i hc
      subst hc
      cases h : splitOnChar c rest with
      | nil => exact absurd h (splitOnChar_ne_nil c rest)
      | cons p ps =>
        rw [h] at ih
        simpa [joinSep] using ih
    · rename_i hc
      cases h : splitOnChar sep rest with
      | nil => exact absurd h (splitOnChar_ne_nil sep rest)
      | cons p ps =>
        rw [h] at ih
        cases ps with
        | nil => simpa [joinSep] using ih
        | cons q ps' => simpa [joinSep] using ih

/-- `sep.join(pieces).split(sep) == pieces` when no piece contains the
separator (and there is at least one piece). -/
theorem splitOnChar_joinSep {sep : Char} {ps : List PyStr} (hne : ps ≠ [])
    (h : ∀ p ∈ ps, sep ∉ p) :
    splitOnChar sep (joinSep [sep] ps) = ps := by
  induction ps with
  | nil => exact absurd rfl hne
  | cons p qs ih =>
    cases qs with
    | nil => exact splitOnChar_no_sep (h p (List.mem_cons_self p []))
    | cons q qs' =>
      have hp : sep ∉ p := h p (List.mem_cons_self p _)
      have hqs : ∀ r ∈ q :: qs', sep ∉ r := fun r hr =>
        h r (List.mem_cons_of_mem p hr)
      have : joinSep [sep] (p :: q :: qs') = p ++ sep :: joinSep [sep] (q :: qs') := by
        simp [joinSep]
      rw [this, splitOnChar_append_sep _ hp, ih (by simp) hqs]

/-! ### Keystroke-group lemmas -/

/-- Whether `Keystroke(s)` raises `ValueError` (query outside the
vocabulary). -/
def lookupFails (s : PyStr) : Bool :=
  match keystrokeOfValue s with
  | .ok _ => false
  | .error _ => true

/-- A failing lookup produces exactly the `ValueError` carrying the query. -/
theorem lookupFails_error {s : PyStr} (h : lookupFails s = true) :
    keystrokeOfValue s = .error (.unrecognizedToken s) := by
  unfold lookupFails at h
  cases hk : keystrokeOfValue s with
  | ok k => rw [hk] at h; cases h
  | error e => rw [(keystrokeOfValue_error hk).1]

/-- A successful batch lookup recovers exactly the queried strings. -/
theorem lookupList_ok {ss : List PyStr} {ks : List Keystroke}
    (h : lookupList ss = .ok ks) : ks.map Keystroke.value = ss := by
  induction ss generalizing ks with
  | nil =>
    simp only [lookupList] at h
    injection h with h'
    subst h'
    rfl
  | cons s rest ih =>
    simp only [lookupList] at h
    cases hk : keystrokeOfValue s with
    | error e => rw [hk] at h; cases h
    | ok k =>
      rw [hk] at h
      cases hr : lookupList rest with
      | error e => rw [hr] at h; cases h
      | ok tl =>
        rw [hr] at h
        injection h with h'
        subst h'
        simp [keystrokeOfValue_ok_value hk, ih hr]

/-- Looking up the canonical strings of a list of keystrokes succeeds and
returns those keystrokes. -/
theorem lookupList_map_value (ks : List Keystroke) :
    lookupList (ks.map Keystroke.value) = .ok ks := by
  induction ks with
  | nil => rfl
  | cons k tl ih =>
    simp only [List.map, lookupList, keystrokeOfValue_value, ih]

/-- Flattening the singleton chunks of a string yields the string back. -/
theorem flatten_map_singleton (s : PyStr) :
    (s.map (fun c => [c])).flatten = s := by
  induction s with
  | nil => rfl
  | cons c rest ih => simp [ih]

/-- A successful character-wise lookup recovers the string: the keystrokes
found have the string's characters as their canonical strings. -/
theorem lookupChars_ok {s : PyStr} {ks : List Keystroke}
    (h : lookupChars s = .ok ks) :
    (ks.map Keystroke.value).flatten = s := by
  unfold lookupChars at h
  rw [lookupList_ok h, flatten_map_singleton]

/-- Serialization inverts decoding on keystroke groups: any group the
decoder produces from a substring has that substring as its `value`. -/
theorem parseKeystrokeGroup_ok_value {s : PyStr} {g : KeystrokeGroup}
    (h : parseKeystrokeGroup s = .ok g) : g.value = s := by
  unfold parseKeystrokeGroup at h
  cases hk : keystrokeOfValue s with
  | ok k =>
    rw [hk] at h
    injection h with h'
    subst h'
    exact keystrokeOfValue_ok_value hk
  | error e =>
    rw [hk] at h
    cases hr : lookupList (splitOnChar '-' s) with
    | ok ks =>
      rw [hr] at h
      match ks, h with
      | [a, b], h =>
        injection h with h'
        subst h'
        have hmap : [a, b].map Keystroke.value = splitOnChar '-' s :=
          lookupList_ok hr
        have hj := joinSep_splitOnChar '-' s
        rw [← hmap] at hj
        simpa [KeystrokeGroup.value, joinSep] using hj
      | [], h => cases h
      | [a], h => cases h
      | a :: b :: c :: tl, h => cases h
    | error e' =>
      rw [hr] at h
      cases hc : lookupChars s with
      | ok ks =>
        rw [hc] at h
        injection h with h'
        subst h'
        simpa [KeystrokeGroup.value] using lookupChars_ok hc
      | error e'' => rw [hc] at h; cases h

/-- The groups on which the decoder provably inverts serialization: a single
keystroke; a range neither of whose endpoints is `MINUS`; a set whose
members all have one-character canonical strings, none of them `MINUS`,
whose concatenated encoding is not itself a vocabulary entry. -/
def goodGroup : KeystrokeGroup → Bool
  | .single _ => true
  | .range a b => a ≠ Keystroke.MINUS && b ≠ Keystroke.MINUS
  | .set ks =>
    ks.all (fun k => (Keystroke.value k).length = 1 && k ≠ Keystroke.MINUS) &&
      lookupFails ((ks.map Keystroke.value).flatten)

/-- A keystroke other than `MINUS` has no hyphen in its canonical string. -/
theorem no_hyphen_of_ne_minus {k : Keystroke} (h : k ≠ .MINUS) :
    '-' ∉ k.value := by
  cases keystroke_value_hyphen k with
  | inl h' => exact absurd h' h
  | inr h' => exact h'

/-- Re-chunking the concatenation of one-character canonical strings
character by character recovers the original chunks. -/
theorem flatten_values_rechunk {ks : List Keystroke}
    (h : ∀ k ∈ ks, ∃ c, Keystroke.value k = [c]) :
    ((ks.map Keystroke.value).flatten.map fun c => [c]) =
      ks.map Keystroke.value := by
  induction ks with
  | nil => rfl
  | cons k tl ih =>
    obtain ⟨c, hv⟩ := h k (List.mem_cons_self k tl)
    simp only [List.map, List.flatten, hv, List.cons_append, List.nil_append,
      List.map_cons]
    congr 1
    exact ih (fun k' hk' => h k' (List.mem_cons_of_mem k hk'))

/-- Decoding inverts serialization on good groups. -/
theorem parse_value_of_goodGroup {g : KeystrokeGroup}
    (h : goodGroup g = true) : parseKeystrokeGroup g.value = .ok g := by
  cases g with
  | single k =>
    unfold parseKeystrokeGroup
    simp only [KeystrokeGroup.value]
    rw [keystrokeOfValue_value k]
  | range a b =>
    simp only [goodGroup, Bool.and_eq_true, decide_eq_true_eq] at h
    obtain ⟨ha, hb⟩ := h
    have hna : '-' ∉ a.value := no_hyphen_of_ne_minus ha
    have hnb : '-' ∉ b.value := no_hyphen_of_ne_minus hb
    have hlookup : keystrokeOfValue (a.value ++ '-' :: b.value) =
        .error (.unrecognizedToken (a.value ++ '-' :: b.value)) := by
      cases hk : keystrokeOfValue (a.value ++ '-' :: b.value) with
      | error e => rw [(keystrokeOfValue_error hk).1]
      | ok k =>
        exfalso
        have hv := keystrokeOfValue_ok_value hk
        have hyph : '-' ∈ k.value := by
          rw [hv]
          simp
        have hkm : k = .MINUS := by
          cases keystroke_value_hyphen k with
          | inl h' => exact h'
          | inr h' => exact absurd hyph h'
        rw [hkm] at hv
        have hlen := congrArg List.length hv
        have ha1 : 0 < a.value.length :=
          List.length_pos.mpr (keystroke_value_ne_nil a)
        simp only [List.length_append, List.length_cons] at hlen
        have : (Keystroke.value .MINUS).length = 1 := rfl
        omega
    have hsplit : splitOnChar '-' (a.value ++ '-' :: b.value) =
        [a.value, b.value] := by
      rw [splitOnChar_append_sep _ hna, splitOnChar_no_sep hnb]
    have hll : lookupList [a.value, b.value] = .ok [a, b] := by
      rw [show [a.value, b.value] = [a, b].map Keystroke.value from rfl]
      exact lookupList_map_value [a, b]
    unfold parseKeystrokeGroup
    simp only [KeystrokeGroup.value]
    rw [hlookup, hsplit, hll]
  | set ks =>
    simp only [goodGroup, Bool.and_eq_true, List.all_eq_true] at h
    obtain ⟨hmem, hfail⟩ := h
    have hchars : ∀ k ∈ ks, ∃ c, Keystroke.value k = [c] ∧ c ≠ '-' := by
      intro k hk
      have := hmem k hk
      simp only [Bool.and_eq_true, decide_eq_true_eq] at this
      obtain ⟨hlen, hne⟩ := this
      cases hv : Keystroke.value k with
      | nil => exact absurd hv (keystroke_value_ne_nil k)
      | cons c cs =>
        rw [hv] at hlen
        simp at hlen
        subst hlen
        refine ⟨c, rfl, fun hc => ?_⟩
        have := no_hyphen_of_ne_minus hne
        rw [hv, hc] at this
        simp at this
    have hnoh : '-' ∉ (ks.map Keystroke.value).flatten := by
      intro hmemh
      rw [List.mem_flatten] at hmemh
      obtain ⟨l, hl, hcl⟩ := hmemh
      rw [List.mem_map] at hl
      obtain ⟨k, hk, hkv⟩ := hl
      obtain ⟨c, hv, hc⟩ := hchars k hk
      rw [← hkv, hv] at hcl
      simp at hcl
      exact hc hcl.symm
    have hflat : ((ks.map Keystroke.value).flatten.map fun c => [c]) =
        ks.map Keystroke.value :=
      flatten_values_rechunk (fun k hk => ⟨(hchars k hk).choose,
        (hchars k hk).choose_spec.1⟩)
    have hsplit : splitOnChar '-' ((ks.map Keystroke.value).flatten) =
        [(ks.map Keystroke.value).flatten] :=
      splitOnChar_no_sep hnoh
    have hfirst : lookupList [(ks.map Keystroke.value).flatten] =
        .error (.unrecognizedToken ((ks.map Keystroke.value).flatten)) := by
      simp only [lookupList, lookupFails_error hfail]
    have hlc : lookupChars ((ks.map Keystroke.value).flatten) = .ok ks := by
      unfold lookupChars
      rw [hflat]
      exact lookupList_map_value ks
    unfold parseKeystrokeGroup
    simp only [KeystrokeGroup.value]
    rw [lookupFails_error hfail, hsplit, hfirst, hlc]

/-! ### Shortcut round-trip lemmas -/

/-- Serialization inverts parsing on group substrings: the groups a parsed
chord carries serialize back to exactly the substrings they came from. -/
theorem parseGroups_ok {ss : List PyStr} {gs : List KeystrokeGroup}
    (h : parseGroups ss = .ok gs) : gs.map KeystrokeGroup.value = ss := by
  induction ss generalizing gs with
  | nil =>
    simp only [parseGroups] at h
    injection h with h'
    subst h'
    rfl
  | cons s rest ih =>
    simp only [parseGroups] at h
    cases hk : parseKeystrokeGroup s with
    | error e => rw [hk] at h; cases h
    | ok g =>
      rw [hk] at h
      cases hr : parseGroups rest with
      | error e => rw [hr] at h; cases h
      | ok tl =>
        rw [hr] at h
        injection h with h'
        subst h'
        simp [parseKeystrokeGroup_ok_value hk, ih hr]

/-- Decoding the serialized substrings of good groups recovers the groups. -/
theorem parseGroups_map_value {gs : List KeystrokeGroup}
    (h : gs.all goodGroup = true) :
    parseGroups (gs.map KeystrokeGroup.value) = .ok gs := by
  induction gs with
  | nil => rfl
  | cons g tl ih =>
    simp only [List.all_cons, Bool.and_eq_true] at h
    simp only [List.map, parseGroups, parse_value_of_goodGroup h.1, ih h.2]

/-- A good group's encoding contains no plain space. -/
theorem goodGroup_no_space {g : KeystrokeGroup} (h : goodGroup g = true) :
    ' ' ∉ g.value := by
  cases g with
  | single k => exact keystroke_value_no_space k
  | range a b =>
    intro hmem
    simp only [KeystrokeGroup.value, List.mem_append, List.mem_cons] at hmem
    rcases hmem with ha | hb | hb
    · exact keystroke_value_no_space a ha
    · cases hb
    · exact keystroke_value_no_space b hb
  | set ks =>
    intro hmem
    simp only [KeystrokeGroup.value, List.mem_flatten] at hmem
    obtain ⟨l, hl, hcl⟩ := hmem
    rw [List.mem_map] at hl
    obtain ⟨k, -, hkv⟩ := hl
    rw [← hkv] at hcl
    exact keystroke_value_no_space k hcl

/-- Round trip, forward direction, on a whole chord of good groups:
`Shortcut.parse(s.to_csv_str()) == s`. -/
theorem parse_to_csv_str {gs : Shortcut} (hne : gs ≠ [])
    (h : gs.all goodGroup = true) :
    Shortcut.parse (Shortcut.to_csv_str gs) = .ok gs := by
  unfold Shortcut.parse Shortcut.to_csv_str
  rw [splitOnChar_joinSep (by simpa using hne) ?_]
  · exact parseGroups_map_value h
  · intro p hp
    rw [List.mem_map] at hp
    obtain ⟨g, hg, hgv⟩ := hp
    rw [← hgv]
    exact goodGroup_no_space (by rw [List.all_eq_true] at h; exact h g hg)

/-- Serialization inverts parsing on chord strings: any successfully parsed
chord serializes back to the very string it was parsed from. -/
theorem to_csv_str_of_parse {c : PyStr} {gs : Shortcut}
    (h : Shortcut.parse c = .ok gs) : Shortcut.to_csv_str gs = c := by
  unfold Shortcut.parse at h
  unfold Shortcut.to_csv_str
  rw [parseGroups_ok h]
  exact joinSep_splitOnChar ' ' c

/-! ### Lemmas about the comma/whitespace field splitter -/

/-- A string with no leading `\s` character. -/
def noLeadWs (l : PyStr) : Prop :=
  l.dropWhile isPySpace = l

/-- A string with no trailing `\s` character. -/
def noTrailWs (l : PyStr) : Prop :=
  l.reverse.dropWhile isPySpace = l.reverse

/-- Strip the trailing whitespace of a string. -/
def dropTrailWs (l : PyStr) : PyStr :=
  (l.reverse.dropWhile isPySpace).reverse

theorem dropWhile_idem (p : Char → Bool) (l : PyStr) :
    (l.dropWhile p).dropWhile p = l.dropWhile p := by
  induction l with
  | nil => rfl
  | cons c t ih =>
    by_cases hc : p c
    · simp [List.dropWhile, hc, ih]
    · simp [List.dropWhile, hc]

theorem noLeadWs_nil : noLeadWs [] := rfl

theorem noLeadWs_cons {c : Char} (t : PyStr) (hc : isPySpace c = false) :
    noLeadWs (c :: t) := by
  simp [noLeadWs, List.dropWhile, hc]

theorem noLeadWs_head {c : Char} {t : PyStr} (h : noLeadWs (c :: t)) :
    isPySpace c = false := by
  by_cases hc : isPySpace c
  · exfalso
    unfold noLeadWs at h
    rw [List.dropWhile_cons, if_pos hc] at h
    have := congrArg List.length h
    have hle := (List.dropWhile_sublist (l := t) (p := isPySpace)).length_le
    simp at this
    omega
  · simpa using hc

theorem noLeadWs_dropWhile (l : PyStr) : noLeadWs (l.dropWhile isPySpace) :=
  dropWhile_idem isPySpace l

theorem noTrailWs_dropTrailWs (l : PyStr) : noTrailWs (dropTrailWs l) := by
  unfold noTrailWs dropTrailWs
  rw [List.reverse_reverse]
  exact dropWhile_idem isPySpace l.reverse

theorem dropTrailWs_eq_of_noTrailWs {l : PyStr} (h : noTrailWs l) :
    dropTrailWs l = l := by
  unfold dropTrailWs
  unfold noTrailWs at h
  rw [h, List.reverse_reverse]

theorem mem_dropTrailWs {a : Char} {l : PyStr} (h : a ∈ dropTrailWs l) :
    a ∈ l := by
  unfold dropTrailWs at h
  rw [List.mem_reverse] at h
  have := (List.dropWhile_sublist (l := l.reverse) (p := isPySpace)).subset h
  rwa [List.mem_reverse] at this

/-- Stripping trailing whitespace of a nonempty string yields the empty
string or a string with the same first character. -/
theorem dropTrailWs_cons (c : Char) (t : PyStr) :
    dropTrailWs (c :: t) = [] ∨ ∃ r, dropTrailWs (c :: t) = c :: r := by
  unfold dropTrailWs
  rw [List.reverse_cons]
  generalize t.reverse = y
  induction y with
  | nil =>
    by_cases hc : isPySpace c
    · left; simp [List.dropWhile, hc]
    · right; exact ⟨[], by simp [List.dropWhile, hc]⟩
  | cons a y' ih =>
    by_cases ha : isPySpace a
    · rw [List.cons_append, List.dropWhile_cons, if_pos ha]
      exact ih
    · right
      rw [List.cons_append, List.dropWhile_cons, if_neg (by simpa using ha)]
      exact ⟨y'.reverse ++ [a], by simp⟩

/-- The splitter never returns an empty piece list. -/
theorem reSplitCommaGo_ne_nil (l : PyStr) :
    ∀ st, reSplitCommaGo l st ≠ [] := by
  induction l with
  | nil => intro st; cases st <;> simp [reSplitCommaGo]
  | cons c rest ih =>
    intro st
    cases st with
    | none =>
      show reSplitCommaGo (c :: rest) none ≠ []
      rw [reSplitCommaGo]
      split
      · exact ih none
      · split
        · simp
        · exact ih (some [c])
    | some acc =>
      rw [reSplitCommaGo]
      split
      · simp
      · exact ih (some (c :: acc))

/-- On comma-free input the splitter returns a single piece: the
accumulator's content followed by the input. -/
theorem reSplitCommaGo_no_comma {l : PyStr} (acc : PyStr) (h : ',' ∉ l) :
    reSplitCommaGo l (some acc) = [acc.reverse ++ l] := by
  induction l generalizing acc with
  | nil => simp [reSplitCommaGo]
  | cons c rest ih =>
    have hc : c ≠ ',' := fun hcc => h (hcc ▸ List.mem_cons_self c rest)
    have hrest : ',' ∉ rest := fun hm => h (List.mem_cons_of_mem c hm)
    rw [reSplitCommaGo, if_neg hc, ih (c :: acc) hrest]
    simp

/-- The splitter consumes a comma-free prefix into its accumulator. -/
theorem reSplitCommaGo_through {p : PyStr} (l acc : PyStr) (h : ',' ∉ p) :
    reSplitCommaGo (p ++ l) (some acc) =
      reSplitCommaGo l (some (p.reverse ++ acc)) := by
  induction p generalizing acc with
  | nil => simp
  | cons c q ih =>
    have hc : c ≠ ',' := fun hcc => h (hcc ▸ List.mem_cons_self c q)
    have hq : ',' ∉ q := fun hm => h (List.mem_cons_of_mem c hm)
    rw [List.cons_append, reSplitCommaGo, if_neg hc, ih (c :: acc) hq]
    simp

/-- One separator step of the splitter. -/
theorem reSplitCommaGo_comma (l acc : PyStr) :
    reSplitCommaGo (',' :: l) (some acc) =
      (acc.dropWhile isPySpace).reverse :: reSplitCommaGo l none := by
  rw [reSplitCommaGo, if_pos rfl]

/-- The separator-consuming state drops exactly the leading whitespace run
and then behaves as a fresh piece. -/
theorem reSplitCommaGo_none (l : PyStr) :
    reSplitCommaGo l none =
      reSplitCommaGo (l.dropWhile isPySpace) (some []) := by
  induction l with
  | nil => rfl
  | cons c rest ih =>
    by_cases hws : isPySpace c
    · rw [reSplitCommaGo, if_pos hws, ih, List.dropWhile_cons, if_pos hws]
    · rw [List.dropWhile_cons, if_neg hws]
      by_cases hc : c = ','
      · subst hc
        rw [reSplitCommaGo, if_neg (by simpa using hws), if_pos rfl,
          reSplitCommaGo, if_pos rfl]
        rfl
      · rw [reSplitCommaGo, if_neg (by simpa using hws), if_neg hc,
          reSplitCommaGo, if_neg hc]

/-- Any string containing a comma splits as a comma-free prefix, the first
comma, and the rest. -/
theorem comma_decomp {l : PyStr} (h : ',' ∈ l) :
    ∃ l₁ l₂, l = l₁ ++ ',' :: l₂ ∧ ',' ∉ l₁ := by
  induction l with
  | nil => cases h
  | cons c rest ih =>
    by_cases hc : c = ','
    · exact ⟨[], rest, by rw [hc]; rfl, by simp⟩
    · have : ',' ∈ rest := by
        cases List.mem_cons.mp h with
        | inl h' => exact absurd h'.symm hc
        | inr h' => exact h'
      obtain ⟨l₁, l₂, heq, hnc⟩ := ih this
      refine ⟨c :: l₁, l₂, by rw [heq]; rfl, fun hm => ?_⟩
      rcases List.mem_cons.mp hm with h' | h'
      · exact hc h'.symm
      · exact hnc h'

/-- The splitter's one-step structure: a comma-free string is one piece;
otherwise the first piece is the comma-free prefix with its trailing
whitespace stripped, and the remaining pieces are those of the suffix with
its leading whitespace stripped. -/
theorem reSplitComma_structure (l : PyStr) :
    (',' ∉ l ∧ reSplitComma l = [l]) ∨
    (∃ l₁ l₂, l = l₁ ++ ',' :: l₂ ∧ ',' ∉ l₁ ∧
      reSplitComma l = dropTrailWs l₁ ::
        reSplitComma (l₂.dropWhile isPySpace)) := by
  by_cases h : ',' ∈ l
  · right
    obtain ⟨l₁, l₂, heq, hnc⟩ := comma_decomp h
    refine ⟨l₁, l₂, heq, hnc, ?_⟩
    unfold reSplitComma
    rw [heq, reSplitCommaGo_through _ _ hnc, reSplitCommaGo_comma,
      reSplitCommaGo_none]
    simp [dropTrailWs]
  · left
    refine ⟨h, ?_⟩
    unfold reSplitComma
    rw [reSplitCommaGo_no_comma _ h]
    rfl

/-- No piece the splitter returns contains a comma. -/
theorem reSplitComma_comma_free (l : PyStr) :
    ∀ p ∈ reSplitComma l, ',' ∉ p := by
  rcases reSplitComma_structure l with ⟨hnc, heq⟩ | ⟨l₁, l₂, heq, hnc, hsp⟩
  · intro p hp
    rw [heq] at hp
    simp at hp
    subst hp
    exact hnc
  · intro p hp
    rw [hsp] at hp
    rcases List.mem_cons.mp hp with h' | h'
    · subst h'
      exact fun hm => hnc (mem_dropTrailWs hm)
    · exact reSplitComma_comma_free (l₂.dropWhile isPySpace) p h'
  termination_by l.length
  decreasing_by
  rw [heq]
  have := (List.dropWhile_sublist (l := l₂) (p := isPySpace)).length_le
  simp [List.length_append]
  omega

/-- If the input has no leading whitespace, neither has the first piece. -/
theorem reSplitComma_head_noLead {l : PyStr} (hl : noLeadWs l) :
    ∀ p, (reSplitComma l).head? = some p → noLeadWs p := by
  rcases reSplitComma_structure l with ⟨hnc, heq⟩ | ⟨l₁, l₂, heq, hnc, hsp⟩
  · intro p hp
    rw [heq] at hp
    injection hp with hp
    subst hp
    exact hl
  · intro p hp
    rw [hsp] at hp
    injection hp with hp
    subst hp
    cases l₁ with
    | nil => exact noLeadWs_nil
    | cons c q =>
      rcases dropTrailWs_cons c q with h0 | ⟨r, h0⟩
      · rw [h0]; exact noLeadWs_nil
      · rw [h0]
        have hchead : isPySpace c = false := by
          have hcl : l = c :: (q ++ ',' :: l₂) := by rw [heq]; rfl
          rw [hcl] at hl
          exact noLeadWs_head hl
        exact noLeadWs_cons r hchead

/-- Every piece but the last has no trailing whitespace, and every piece but
the first has no leading whitespace: the separator pattern `\s*,\s*` is
greedy on both sides. -/
theorem reSplitComma_shape (l : PyStr) :
    (∀ p ∈ (reSplitComma l).dropLast, noTrailWs p) ∧
    (∀ p ∈ (reSplitComma l).tail, noLeadWs p) := by
  rcases reSplitComma_structure l with ⟨hnc, heq⟩ | ⟨l₁, l₂, heq, hnc, hsp⟩
  · rw [heq]
    constructor <;> intro p hp <;> simp at hp
  · have hrec := reSplitComma_shape (l₂.dropWhile isPySpace)
    have hhead := reSplitComma_head_noLead (noLeadWs_dropWhile l₂)
    cases hR : reSplitComma (l₂.dropWhile isPySpace) with
    | nil => exact absurd hR (reSplitCommaGo_ne_nil _ (some []))
    | cons r0 R' =>
      rw [hR] at hsp hrec
      rw [hsp]
      constructor
      · intro p hp
        rcases List.mem_cons.mp hp with h' | h'
        · subst h'
          exact noTrailWs_dropTrailWs l₁
        · exact hrec.1 p h'
      · intro p hp
        simp only [List.tail_cons] at hp
        rcases List.mem_cons.mp hp with h' | h'
        · subst h'
          exact hhead p (by rw [hR]; rfl)
        · exact hrec.2 p h'
  termination_by l.length
  decreasing_by
  rw [heq]
  have := (List.dropWhile_sublist (l := l₂) (p := isPySpace)).length_le
  simp [List.length_append]
  omega

/-- `joinSep` with the `", "` separator keeps the head's leading
character. -/
theorem noLeadWs_joinSep {q : PyStr} (qs : List PyStr) (hq : noLeadWs q) :
    noLeadWs (joinSep ", ".data (q :: qs)) := by
  cases q with
  | nil =>
    cases qs with
    | nil => exact noLeadWs_nil
    | cons r qs' =>
      have : joinSep ", ".data ([] :: r :: qs') =
          ',' :: ' ' :: joinSep ", ".data (r :: qs') := by
        simp [joinSep]
      rw [this]
      exact noLeadWs_cons _ (by decide)
  | cons c t =>
    have hc := noLeadWs_head hq
    cases qs with
    | nil => exact hq
    | cons r qs' =>
      have : joinSep ", ".data ((c :: t) :: r :: qs') =
          c :: (t ++ ", ".data ++ joinSep ", ".data (r :: qs')) := by
        simp [joinSep]
      rw [this]
      exact noLeadWs_cons _ hc

/-- Re-splitting the `", "`-join of pieces that satisfy the splitter's
invariants recovers the pieces. -/
theorem reSplitComma_joinSep : ∀ (ps : List PyStr), ps ≠ [] →
    (∀ p ∈ ps, ',' ∉ p) →
    (∀ p ∈ ps.dropLast, noTrailWs p) →
    (∀ p ∈ ps.tail, noLeadWs p) →
    reSplitComma (joinSep ", ".data ps) = ps := by
  intro ps
  induction ps with
  | nil => exact fun h => absurd rfl h
  | cons p qs ih =>
    intro hne hc ht hl
    cases qs with
    | nil =>
      show reSplitComma (joinSep ", ".data [p]) = [p]
      have : joinSep ", ".data [p] = p := rfl
      rw [this]
      unfold reSplitComma
      rw [reSplitCommaGo_no_comma _ (hc p (List.mem_cons_self p []))]
      rfl
    | cons q qs' =>
      have hJ : joinSep ", ".data (p :: q :: qs') =
          p ++ ',' :: ' ' :: joinSep ", ".data (q :: qs') := by
        simp [joinSep]
      rw [hJ]
      unfold reSplitComma
      rw [reSplitCommaGo_through _ _ (hc p (List.mem_cons_self p _)),
        reSplitCommaGo_comma, reSplitCommaGo_none]
      have hpd : noTrailWs p := by
        apply ht p
        have : (p :: q :: qs').dropLast = p :: (q :: qs').dropLast := rfl
        rw [this]
        exact List.mem_cons_self p _
      have hpiece : ((p.reverse ++ []).dropWhile isPySpace).reverse = p := by
        rw [List.append_nil]
        exact dropTrailWs_eq_of_noTrailWs hpd
      rw [hpiece]
      have hq_nl : noLeadWs q := hl q (by simp)
      have hJ' : noLeadWs (joinSep ", ".data (q :: qs')) :=
        noLeadWs_joinSep qs' hq_nl
      have hdrop : (' ' :: joinSep ", ".data (q :: qs')).dropWhile isPySpace =
          joinSep ", ".data (q :: qs') := by
        rw [List.dropWhile_cons, if_pos (by decide)]
        exact hJ'
      rw [hdrop]
      have hrest := ih (by simp) (fun r hr => hc r (List.mem_cons_of_mem p hr))
        (fun r hr => ht r (by
          have : (p :: q :: qs').dropLast = p :: (q :: qs').dropLast := rfl
          rw [this]
          exact List.mem_cons_of_mem p hr))
        (fun r hr => hl r (by
          simp only [List.tail_cons]
          simp only [List.tail_cons] at hr
          exact List.mem_cons_of_mem q hr))
      unfold reSplitComma at hrest
      rw [hrest]

/-- The splitter always returns at least one piece. -/
theorem reSplitComma_ne_nil (s : PyStr) : reSplitComma s ≠ [] :=
  reSplitCommaGo_ne_nil s (some [])

/-- Serialization inverts parsing on chord-string lists: the shortcut tuple
a parsed field carries serializes back to exactly the chord substrings. -/
theorem parseShortcuts_ok {cs : List PyStr} {ss : List Shortcut}
    (h : parseShortcuts cs = .ok ss) : ss.map Shortcut.to_csv_str = cs := by
  induction cs generalizing ss with
  | nil =>
    simp only [parseShortcuts] at h
    injection h with h'
    subst h'
    rfl
  | cons c rest ih =>
    simp only [parseShortcuts] at h
    cases hk : Shortcut.parse c with
    | error e => rw [hk] at h; cases h
    | ok sc =>
      rw [hk] at h
      cases hr : parseShortcuts rest with
      | error e => rw [hr] at h; cases h
      | ok tl =>
        rw [hr] at h
        injection h with h'
        subst h'
        simp [to_csv_str_of_parse hk, ih hr]

/-- Task round trip: a task built by a successful parse re-parses from its
own serialized field triple to itself. -/
theorem task_roundtrip_core {d sf imp : PyStr} {t : Task}
    (h : Task.parse d sf imp = .ok t) :
    Task.parse t.to_csv_dict.1 t.to_csv_dict.2.1 t.to_csv_dict.2.2 = .ok t := by
  unfold Task.parse at h
  cases hs : parseShortcuts (reSplitComma sf) with
  | error e => rw [hs] at h; cases h
  | ok ss =>
    rw [hs] at h
    injection h with h'
    subst h'
    unfold Task.to_csv_dict
    simp only
    have hmap : ss.map Shortcut.to_csv_str = reSplitComma sf :=
      parseShortcuts_ok hs
    have hresplit :
        reSplitComma (joinSep ", ".data (ss.map Shortcut.to_csv_str)) =
          reSplitComma sf := by
      rw [hmap]
      exact reSplitComma_joinSep _ (reSplitComma_ne_nil sf)
        (reSplitComma_comma_free sf) (reSplitComma_shape sf).1
        (reSplitComma_shape sf).2
    unfold Task.parse
    rw [hresplit, hs]
    have himp : ∀ b : Bool,
        decide (pyLower (if b then "true".data else "false".data) =
          "true".data) = b := by decide
    rw [himp]

/-! ### Sheet grouping lemmas -/

/-- A key is kept by the deduplicating worker exactly when it occurs in the
input and was not already seen. -/
theorem mem_dictFromKeysAux (a : PyStr) :
    ∀ (l seen : List PyStr),
      a ∈ dictFromKeysAux seen l ↔ a ∈ l ∧ a ∉ seen := by
  intro l
  induction l with
  | nil => intro seen; simp [dictFromKeysAux]
  | cons x xs ih =>
    intro seen
    simp only [dictFromKeysAux]
    by_cases hx : x ∈ seen
    · rw [if_pos hx, ih seen]
      constructor
      · rintro ⟨hm, hn⟩
        exact ⟨List.mem_cons_of_mem x hm, hn⟩
      · rintro ⟨hm, hn⟩
        rcases List.mem_cons.mp hm with h' | h'
        · subst h'
          exact absurd hx hn
        · exact ⟨h', hn⟩
    · rw [if_neg hx]
      constructor
      · intro hm
        rcases List.mem_cons.mp hm with h' | h'
        · subst h'
          exact ⟨List.mem_cons_self _ _, hx⟩
        · have := (ih (x :: seen)).mp h'
          exact ⟨List.mem_cons_of_mem x this.1,
            fun hs => this.2 (List.mem_cons_of_mem x hs)⟩
      · rintro ⟨hm, hn⟩
        rcases List.mem_cons.mp hm with h' | h'
        · subst h'
          exact List.mem_cons_self _ _
        · by_cases hax : a = x
          · subst hax
            exact List.mem_cons_self _ _
          · apply List.mem_cons_of_mem
            apply (ih (x :: seen)).mpr
            refine ⟨h', fun hs => ?_⟩
            rcases List.mem_cons.mp hs with h'' | h''
            · exact hax h''
            · exact hn h''

/-- Membership in the deduplicated key list is membership in the keys. -/
theorem mem_dictFromKeys (a : PyStr) (l : List PyStr) :
    a ∈ dictFromKeys l ↔ a ∈ l := by
  unfold dictFromKeys
  rw [mem_dictFromKeysAux]
  simp

/-- The worker's output is a sublist of its input. -/
theorem dictFromKeysAux_sublist :
    ∀ (l seen : List PyStr), (dictFromKeysAux seen l).Sublist l := by
  intro l
  induction l with
  | nil => intro seen; simp [dictFromKeysAux]
  | cons x xs ih =>
    intro seen
    simp only [dictFromKeysAux]
    by_cases hx : x ∈ seen
    · rw [if_pos hx]
      exact (ih seen).cons x
    · rw [if_neg hx]
      exact (ih (x :: seen)).cons₂ x

/-- The deduplicated key list is a sublist of the keys: first-seen order is
preserved. -/
theorem dictFromKeys_sublist (l : List PyStr) :
    (dictFromKeys l).Sublist l :=
  dictFromKeysAux_sublist l []

/-- The worker's output has no duplicates. -/
theorem dictFromKeysAux_nodup :
    ∀ (l seen : List PyStr), (dictFromKeysAux seen l).Nodup := by
  intro l
  induction l with
  | nil => intro seen; simp [dictFromKeysAux]
  | cons x xs ih =>
    intro seen
    simp only [dictFromKeysAux]
    by_cases hx : x ∈ seen
    · rw [if_pos hx]
      exact ih seen
    · rw [if_neg hx, List.nodup_cons]
      refine ⟨fun hm => ?_, ih (x :: seen)⟩
      have := (mem_dictFromKeysAux x xs (x :: seen)).mp hm
      exact this.2 (List.mem_cons_self _ _)

/-- The deduplicated key list has no duplicates. -/
theorem dictFromKeys_nodup (l : List PyStr) :
    (dictFromKeys l).Nodup :=
  dictFromKeysAux_nodup l []

/-- Three example sheet tasks with section labels B, A, B in that order. -/
def exTaskB1 : SheetTask := ⟨"B".data, "first b task".data, [], false⟩

/-- Example task in section A. -/
def exTaskA1 : SheetTask := ⟨"A".data, "a task".data, [], false⟩

/-- A second example task in section B, after the A task. -/
def exTaskB2 : SheetTask := ⟨"B".data, "second b task".data, [], true⟩

/-- The example task list with sections in order B, A, B. -/
def exSheetTasks : List SheetTask := [exTaskB1, exTaskA1, exTaskB2]

/-! ### Claim theorems -/

/-- C1, counterexample: the round-trip law fails on Shortcuts the claim's
grammar reaches.  A one-element KeystrokeSet serializes to its member's
canonical string and re-parses as a bare Keystroke; a KeystrokeRange with a
MINUS endpoint serializes with extra hyphens and re-parses as a set; a set
whose concatenation is a vocabulary entry (F followed by 1) re-parses as
that entry; a set containing MINUS between two letters re-parses as a
range. -/
theorem c1_counterexample :
    (Shortcut.parse (Shortcut.to_csv_str [.set [.A]]) =
      .ok [.single .A]) ∧
    (Shortcut.parse (Shortcut.to_csv_str [.set [.A]]) ≠
      .ok [.set [.A]]) ∧
    (Shortcut.parse (Shortcut.to_csv_str [.range .MINUS .A]) =
      .ok [.set [.MINUS, .MINUS, .A]]) ∧
    (Shortcut.parse (Shortcut.to_csv_str [.set [.F, .ONE]]) =
      .ok [.single .F1]) ∧
    (Shortcut.parse (Shortcut.to_csv_str [.set [.A, .MINUS, .B]]) =
      .ok [.range .A .B]) := by
  refine ⟨rfl, ?_, rfl, rfl, rfl⟩
  intro h
  rw [show Shortcut.parse (Shortcut.to_csv_str [.set [.A]]) =
    .ok [.single .A] from rfl] at h
  injection h with h'
  exact absurd h' (by decide)

/-- C1, amended: for every non-empty Shortcut whose groups are each a single
Keystroke, a KeystrokeRange neither of whose endpoints is MINUS, or a
KeystrokeSet whose members all have one-character canonical strings, none of
them MINUS, and whose concatenated encoding is not itself a vocabulary
entry, parsing the serialized form returns a structurally equal Shortcut:
`Shortcut.parse(s.to_csv_str()) == s`. -/
theorem c1_roundtrip_amended (gs : Shortcut) (h1 : gs ≠ [])
    (h2 : gs.all goodGroup = true) :
    Shortcut.parse (Shortcut.to_csv_str gs) = .ok gs :=
  parse_to_csv_str h1 h2

/-- C1 witness: the amended round trip at the concrete Shortcut
`⌘ 0-9 ↑↓` (a single keystroke, a range, and a two-glyph set). -/
theorem c1_roundtrip_amended_witness :
    (([.single .CMD, .range .ZERO .NINE, .set [.UP, .DOWN]] : Shortcut) ≠
      []) ∧
    (([.single .CMD, .range .ZERO .NINE,
        .set [.UP, .DOWN]] : Shortcut).all goodGroup = true) ∧
    Shortcut.parse (Shortcut.to_csv_str
      [.single .CMD, .range .ZERO .NINE, .set [.UP, .DOWN]]) =
      .ok [.single .CMD, .range .ZERO .NINE, .set [.UP, .DOWN]] :=
  ⟨by decide, by decide,
    c1_roundtrip_amended [.single .CMD, .range .ZERO .NINE, .set [.UP, .DOWN]]
      (by decide) (by decide)⟩

/-- C2, code bug: `Shortcut.parse` does not fail on the empty string or on a
string of spaces.  Each empty substring falls through the single-token and
range attempts into `KeystrokeSet(*())`, which accepts zero arguments, so
the parse returns a Shortcut of empty KeystrokeSets instead of raising. -/
theorem c2_empty_parse_succeeds :
    (Shortcut.parse [] = .ok [.set []]) ∧
    (Shortcut.parse [' '] = .ok [.set [], .set []]) :=
  ⟨rfl, rfl⟩

/-- C3: for every Task built by a successful `Task.parse`, re-serializing
via `to_csv_dict` and re-parsing the resulting field triple returns a
structurally equal Task. -/
theorem c3_task_roundtrip {d sf imp : PyStr} {t : Task}
    (h : Task.parse d sf imp = .ok t) :
    Task.parse t.to_csv_dict.1 t.to_csv_dict.2.1 t.to_csv_dict.2.2 =
      .ok t :=
  task_roundtrip_core h

/-- The Task that parsing the record ("Back", "⌘ ←, ⌘ [", "true")
produces. -/
def backTask : Task :=
  ⟨"Back".data,
   [[.single .CMD, .single .LEFT], [.single .CMD, .single .LEFT_BRACKET]],
   true⟩

/-- C3 witness: the round trip at the concrete record
("Back", "⌘ ←, ⌘ [", "true"). -/
theorem c3_task_roundtrip_witness :
    (Task.parse "Back".data "⌘ ←, ⌘ [".data "true".data = .ok backTask) ∧
    Task.parse backTask.to_csv_dict.1 backTask.to_csv_dict.2.1
      backTask.to_csv_dict.2.2 = .ok backTask :=
  ⟨rfl, @c3_task_roundtrip "Back".data "⌘ ←, ⌘ [".data "true".data
    backTask rfl⟩

/-- C4: a substring equal to the canonical string of a vocabulary entry
decodes as that single Keystroke — the single-token grammar is tried first,
so no range or set reinterpretation happens. -/
theorem c4_single_token_priority {s : PyStr} {k : Keystroke}
    (h : keystrokeOfValue s = .ok k) :
    parseKeystrokeGroup s = .ok (.single k) := by
  unfold parseKeystrokeGroup
  rw [h]

/-- C4 witness: the substring "-" decodes as the MINUS Keystroke, not as a
malformed range. -/
theorem c4_single_token_priority_witness :
    (keystrokeOfValue "-".data = .ok .MINUS) ∧
    parseKeystrokeGroup "-".data = .ok (.single .MINUS) :=
  ⟨rfl, c4_single_token_priority rfl⟩

/-- C5: a substring that is no vocabulary entry and splits on '-' into
exactly two sides that are both vocabulary entries decodes as
`KeystrokeRange(start, end)`. -/
theorem c5_range_priority {s p q : PyStr} {a b : Keystroke}
    (hno : lookupFails s = true)
    (hsplit : splitOnChar '-' s = [p, q])
    (ha : keystrokeOfValue p = .ok a)
    (hb : keystrokeOfValue q = .ok b) :
    parseKeystrokeGroup s = .ok (.range a b) := by
  unfold parseKeystrokeGroup
  rw [lookupFails_error hno, hsplit]
  simp only [lookupList, ha, hb]

/-- C5 witness: "0-9" decodes as `KeystrokeRange(ZERO, NINE)`. -/
theorem c5_range_priority_witness :
    (lookupFails "0-9".data = true) ∧
    (splitOnChar '-' "0-9".data = ["0".data, "9".data]) ∧
    (keystrokeOfValue "0".data = .ok .ZERO) ∧
    (keystrokeOfValue "9".data = .ok .NINE) ∧
    parseKeystrokeGroup "0-9".data = .ok (.range .ZERO .NINE) :=
  ⟨rfl, rfl, rfl, rfl, c5_range_priority rfl rfl rfl rfl⟩

/-- C6, counterexample: "1-2-3" is no vocabulary entry, has more than one
'-' separator (so the range grammar fails), and every character is a
single-glyph vocabulary entry, yet the decoder does not return the
KeystrokeSet of those tokens: the range attempt looks up all three parts
successfully and the three-argument `KeystrokeRange` call raises an
uncaught TypeError. -/
theorem c6_counterexample :
    (lookupFails "1-2-3".data = true) ∧
    (splitOnChar '-' "1-2-3".data = ["1".data, "2".data, "3".data]) ∧
    (lookupChars "1-2-3".data =
      .ok [.ONE, .MINUS, .TWO, .MINUS, .THREE]) ∧
    (parseKeystrokeGroup "1-2-3".data = .error (.typeError 3)) ∧
    (parseKeystrokeGroup "1-2-3".data ≠
      .ok (.set [.ONE, .MINUS, .TWO, .MINUS, .THREE])) := by
  refine ⟨rfl, rfl, rfl, rfl, ?_⟩
  intro h
  rw [show parseKeystrokeGroup "1-2-3".data = .error (.typeError 3)
    from rfl] at h
  cases h

/-- C6, amended: a substring that is no vocabulary entry, whose range
attempt fails with a lookup error (some '-'-separated part is not a
vocabulary entry — excluding the three-or-more-valid-parts case, which
raises an uncaught TypeError instead), and whose characters all match
single-glyph vocabulary entries, decodes as the KeystrokeSet of those
tokens in order of appearance. -/
theorem c6_set_decoding_amended {s : PyStr} {ks : List Keystroke}
    {e : ParseError}
    (hno : lookupFails s = true)
    (hrange : lookupList (splitOnChar '-' s) = .error e)
    (hset : lookupChars s = .ok ks) :
    parseKeystrokeGroup s = .ok (.set ks) := by
  unfold parseKeystrokeGroup
  rw [lookupFails_error hno, hrange, hset]

/-- C6 witness: "↑↓←→" decodes as `KeystrokeSet(UP, DOWN, LEFT, RIGHT)`,
in that order. -/
theorem c6_set_decoding_amended_witness :
    (lookupFails "↑↓←→".data = true) ∧
    (lookupList (splitOnChar '-' "↑↓←→".data) =
      .error (.unrecognizedToken "↑↓←→".data)) ∧
    (lookupChars "↑↓←→".data = .ok [.UP, .DOWN, .LEFT, .RIGHT]) ∧
    parseKeystrokeGroup "↑↓←→".data =
      .ok (.set [.UP, .DOWN, .LEFT, .RIGHT]) :=
  ⟨rfl, rfl, rfl, c6_set_decoding_amended rfl rfl rfl⟩

/-- C7: `Task.parse` sets the important flag to true exactly when the
importance field lowercases to the literal "true"; anything else — the
empty string, "yes", "1" — yields false. -/
theorem c7_importance_iff {d sf imp : PyStr} {t : Task}
    (h : Task.parse d sf imp = .ok t) :
    t.important = true ↔ pyLower imp = "true".data := by
  unfold Task.parse at h
  cases hs : parseShortcuts (reSplitComma sf) with
  | error e => rw [hs] at h; cases h
  | ok ss =>
    rw [hs] at h
    injection h with h'
    subst h'
    simp

/-- The Task that parsing ("Go", "A", "yes") produces: "yes" is not
"true", so important is false. -/
def yesTask : Task := ⟨"Go".data, [[.single .A]], false⟩

/-- C7 witness: the field "yes" yields important == false (and "yes" does
not lowercase to "true"). -/
theorem c7_importance_iff_witness :
    (Task.parse "Go".data "A".data "yes".data = .ok yesTask) ∧
    (yesTask.important = true ↔ pyLower "yes".data = "true".data) :=
  ⟨rfl, @c7_importance_iff "Go".data "A".data "yes".data yesTask rfl⟩

/-- C8, counterexample: on "del-A-B" all three grammars fail (it is no
vocabulary entry, it has two '-' separators, and its characters include
'd', which is no single-glyph entry), yet the decoder does not surface the
single-token lookup error carrying "del-A-B": the range attempt looks up
all three parts successfully and the three-argument `KeystrokeRange` call
raises an uncaught TypeError first. -/
theorem c8_counterexample :
    (lookupFails "del-A-B".data = true) ∧
    (splitOnChar '-' "del-A-B".data =
      ["del".data, "A".data, "B".data]) ∧
    (lookupChars "del-A-B".data = .error (.unrecognizedToken ['d'])) ∧
    (parseKeystrokeGroup "del-A-B".data = .error (.typeError 3)) ∧
    (parseKeystrokeGroup "del-A-B".data ≠
      .error (.unrecognizedToken "del-A-B".data)) := by
  refine ⟨rfl, rfl, rfl, rfl, ?_⟩
  intro h
  rw [show parseKeystrokeGroup "del-A-B".data = .error (.typeError 3)
    from rfl] at h
  injection h with h'
  cases h'

/-- C8, amended: when the single-token lookup fails, the range attempt
fails with a lookup error (not the TypeError of three-or-more valid
parts), and the set attempt fails, the decoder re-raises the single-token
error, which carries the whole offending substring. -/
theorem c8_first_error_amended {s : PyStr} {e1 e2 : ParseError}
    (hno : lookupFails s = true)
    (hrange : lookupList (splitOnChar '-' s) = .error e1)
    (hset : lookupChars s = .error e2) :
    parseKeystrokeGroup s = .error (.unrecognizedToken s) := by
  unfold parseKeystrokeGroup
  rw [lookupFails_error hno, hrange, hset]

/-- C8 witness: "xyz123" fails every grammar and the decoder surfaces the
single-token error carrying "xyz123". -/
theorem c8_first_error_amended_witness :
    (lookupFails "xyz123".data = true) ∧
    (lookupList (splitOnChar '-' "xyz123".data) =
      .error (.unrecognizedToken "xyz123".data)) ∧
    (lookupChars "xyz123".data = .error (.unrecognizedToken ['x'])) ∧
    parseKeystrokeGroup "xyz123".data =
      .error (.unrecognizedToken "xyz123".data) :=
  ⟨rfl, rfl, rfl, c8_first_error_amended rfl rfl rfl⟩

/-- C9: sheet assembly groups tasks by section, preserving the first-seen
order of distinct section labels (the label list is a duplicate-free
sublist of the per-task label sequence containing every label) and the
original relative order of tasks within each section (each group is a
sublist of the task list holding exactly that section's tasks); in
particular sections B, A, B group to B, A with B's two tasks in their
original order. -/
theorem c9_sheet_grouping :
    (∀ ts : List SheetTask, (sheetSections ts).Nodup) ∧
    (∀ ts : List SheetTask, ∀ s,
      s ∈ sheetSections ts ↔ s ∈ ts.map SheetTask.sect) ∧
    (∀ ts : List SheetTask,
      (sheetSections ts).Sublist (ts.map SheetTask.sect)) ∧
    (∀ ts : List SheetTask, ∀ sec : PyStr,
      ((ts.filter (fun t => t.sect = sec)).Sublist ts)) ∧
    (∀ ts : List SheetTask, ∀ sec : PyStr, ∀ t : SheetTask,
      (t ∈ ts.filter (fun t => t.sect = sec) ↔ t ∈ ts ∧ t.sect = sec)) ∧
    (sheetSections exSheetTasks = ["B".data, "A".data]) ∧
    (sheetTasksBySection exSheetTasks =
      [("B".data, [exTaskB1, exTaskB2]), ("A".data, [exTaskA1])]) := by
  refine ⟨fun ts => dictFromKeys_nodup _,
    fun ts s => mem_dictFromKeys s _,
    fun ts => dictFromKeys_sublist _,
    fun ts sec => List.filter_sublist ts,
    fun ts sec t => ?_, by decide, by decide⟩
  rw [List.mem_filter]
  simp

/-- C10: on a group substring that is no vocabulary entry and splits on '-'
into three parts that are each vocabulary entries, `Shortcut.parse` raises
the TypeError of the three-argument `KeystrokeRange` call; the surrounding
`except ValueError` handlers do not catch it, so the failure is not an
unrecognized-token error. -/
theorem c10_typeerror_escapes :
    (Shortcut.parse "A-B-C".data = .error (.typeError 3)) ∧
    (∀ tok : PyStr,
      (ParseError.typeError 3) ≠ ParseError.unrecognizedToken tok) :=
  ⟨rfl, fun tok h => by cases h⟩

end Neatsheets
